import Mathlib

/-!
Shallow embedding of `scikits/timeseries/extras.py` (functions `isleapyear`,
`count_missing`, `convert_to_annual`, `accept_atmost_missing`, `guess_freq`,
and the date-column / sorting logic of `tsfromtxt`), together with theorems
settling the specification claims about them.

Machine integers are modelled as `Int`/`Nat` (no overflow is relevant here),
numpy masked arrays as lists of rows carrying an explicit boolean mask
(`true` = missing), and Python exceptions as `Except`.
-/

set_option maxHeartbeats 1000000
set_option maxRecDepth 8000

/-- Modelled from the spec: the integer frequency constants live in the
`const` C-extension module, which is not part of the sources; per the spec
they form a closed enumeration of categories (annual, quarterly with a
fiscal month and an E/S variant, monthly, weekly, business, daily, hourly,
minute, second).  The `freq // _c.FR_ANN == 1` style tests of the source
translate to membership in the corresponding category. -/
inductive Freq where
  | fr_ann : Freq
  | fr_qtrE : ℤ → Freq
  | fr_qtrS : ℤ → Freq
  | fr_mth : Freq
  | fr_wk : Freq
  | fr_bus : Freq
  | fr_day : Freq
  | fr_hr : Freq
  | fr_min : Freq
  | fr_sec : Freq
  deriving DecidableEq, Repr

/-- `isleapyear(year)` from extras.py lines 32-43:
`np.logical_or(year % 400 == 0, np.logical_and(year % 4 == 0, year % 100 > 0))`.
Python's `%` on a positive modulus is non-negative, exactly like `Int.emod`. -/
def isleapyear (year : ℤ) : Bool :=
  (year % 400 == 0) || ((year % 4 == 0) && decide (year % 100 > 0))

/-- Element-wise action of `isleapyear` on a sequence of years
(numpy broadcasting over a 1-D array). -/
def isleapyears (years : List ℤ) : List Bool :=
  years.map isleapyear

/-- One row of a 2-D TimeSeries: the data values, the missing-mask
(`true` = masked/missing, as in numpy.ma), and the calendar fields
(`series.year`, `series.months`) of the row's date. -/
structure TSRow where
  data : List ℤ
  mask : List Bool
  year : ℤ
  month : ℤ
  deriving DecidableEq, Repr

/-- A 2-D TimeSeries: trailing-axis width (`series.shape[-1]`), frequency,
and one `TSRow` per leading-axis entry. -/
structure TS2 where
  width : ℕ
  freq : Freq
  rows : List TSRow
  deriving DecidableEq, Repr

def dummyRow : TSRow := ⟨[], [], 0, 0⟩

/-- `series.count(axis=-1)` for one row: the number of non-masked slots. -/
def countRow (r : TSRow) : ℕ :=
  (r.mask.filter (fun b => b = false)).length

/-- The Python exceptions raised by the embedded functions. -/
inductive TSError where
  | typeError
  | notImplementedError
  | unboundLocalError
  deriving DecidableEq, Repr

/-- Annual branch of `count_missing` (line 72):
`missing -= ~isleapyear(series.year)` acts row-wise. -/
def annAdjust (r : TSRow) (m : ℤ) : ℤ :=
  if isleapyear r.year = false then m - 1 else m

/-- Monthly branch of `count_missing` (lines 74-79), row-wise:
`missing[[m in [4,6,9,11]]] -= 1; missing[isfeb] -= 2;
missing[isfeb & ~isleapyear(year)] -= 1`. -/
def mthAdjust (r : TSRow) (m : ℤ) : ℤ :=
  let m1 := if r.month = 4 ∨ r.month = 6 ∨ r.month = 9 ∨ r.month = 11 then m - 1 else m
  let m2 := if r.month = 2 then m1 - 2 else m1
  if r.month = 2 ∧ isleapyear r.year = false then m2 - 1 else m2

/-- The three quarterly alignment classes of lines 83-94. -/
inductive QtrClass where
  | janC
  | febC
  | marC
  deriving DecidableEq, Repr

/-- The quarterly frequency dispatch of lines 83-94.  The first membership
tuple in the source is
`(FR_QTREJAN, FR_QTRSJAN, FR_QTREAPR, FR_QTRSAPR, FR_QTREOCT, FR_QTRSOCT,
FR_QTREOCT, FR_QTRSOCT)` - the October codes appear twice and the July codes
are absent - which is embedded verbatim here.  A quarterly code matching no
tuple leaves the Python local `isfeb` unassigned, so line 95 raises
`UnboundLocalError`; that case is `none`. -/
def qtrClass (f : Freq) : Option QtrClass :=
  if f ∈ [Freq.fr_qtrE 1, Freq.fr_qtrS 1, Freq.fr_qtrE 4, Freq.fr_qtrS 4,
          Freq.fr_qtrE 10, Freq.fr_qtrS 10, Freq.fr_qtrE 10, Freq.fr_qtrS 10] then
    some QtrClass.janC
  else if f ∈ [Freq.fr_qtrE 2, Freq.fr_qtrS 2, Freq.fr_qtrE 5, Freq.fr_qtrS 5,
               Freq.fr_qtrE 8, Freq.fr_qtrS 8, Freq.fr_qtrE 11, Freq.fr_qtrS 11] then
    some QtrClass.febC
  else if f ∈ [Freq.fr_qtrE 3, Freq.fr_qtrS 3, Freq.fr_qtrE 6, Freq.fr_qtrS 6,
               Freq.fr_qtrE 9, Freq.fr_qtrS 9, Freq.fr_qtrE 12, Freq.fr_qtrS 12] then
    some QtrClass.marC
  else
    none

/-- Quarterly branch of `count_missing` (lines 83-95), row-wise. -/
def qtrAdjust (c : QtrClass) (r : TSRow) (m : ℤ) : ℤ :=
  match c with
  | QtrClass.janC =>
    let m1 := if r.month = 4 then m - 2 else m
    if r.month = 4 ∧ isleapyear r.year = false then m1 - 1 else m1
  | QtrClass.febC =>
    let m1 := if r.month = 2 ∨ r.month = 11 then m - 1 else m
    if r.month = 2 ∧ isleapyear r.year = false then m1 - 1 else m1
  | QtrClass.marC =>
    let m1 := if r.month = 3 ∨ r.month = 6 then m - 1 else m
    if r.month = 3 ∧ isleapyear r.year = false then m1 - 1 else m1

/-- Modelled from the spec: `freq // _c.FR_ANN == 1` - annual category. -/
def isAnnGroup : Freq → Bool
  | Freq.fr_ann => true
  | _ => false

/-- Modelled from the spec: `freq // _c.FR_QTR == 1` - quarterly category. -/
def isQtrGroup : Freq → Bool
  | Freq.fr_qtrE _ => true
  | Freq.fr_qtrS _ => true
  | _ => false

/-- Modelled from the spec: `freq // _c.FR_MTH == 1` - monthly category. -/
def isMthGroup : Freq → Bool
  | Freq.fr_mth => true
  | _ => false

/-- The dispatch of `count_missing` on a 2-D series (lines 67-97), returning
the per-row adjustment applied to the raw missing count, or the exception the
corresponding branch raises. -/
def cmAdjust (width : ℕ) (freq : Freq) : Except TSError (TSRow → ℤ → ℤ) :=
  if width = 366 ∧ isAnnGroup freq = true then
    .ok annAdjust
  else if width = 31 ∧ isMthGroup freq = true then
    .ok mthAdjust
  else if width = 92 ∧ isQtrGroup freq = true then
    match qtrClass freq with
    | some c => .ok (qtrAdjust c)
    | none => .error TSError.unboundLocalError
  else if ¬(width = 12 ∨ width = 7) then
    .error TSError.notImplementedError
  else
    .ok (fun _ m => m)

/-- Raw missing count of one row (`series.shape[-1] - series.count(axis=-1)`)
followed by the branch's calendar adjustment. -/
def rowMissing (width : ℕ) (adjust : TSRow → ℤ → ℤ) (r : TSRow) : ℤ :=
  adjust r ((width : ℤ) - (countRow r : ℤ))

/-- `count_missing` on a 2-D `TimeSeries` (lines 67-98). -/
def count_missing2 (s : TS2) : Except TSError (List ℤ) :=
  (cmAdjust s.width s.freq).map (fun adjust => s.rows.map (rowMissing s.width adjust))

/-- Possible arguments to `count_missing`: a non-TimeSeries object, a 1-D
series (only its mask matters), a series of rank > 2, or a 2-D series. -/
inductive CMInput where
  | notTS : CMInput
  | ts1 : List Bool → CMInput
  | tsHigh : CMInput
  | ts2 : TS2 → CMInput
  deriving DecidableEq, Repr

/-- Result of `count_missing`: a scalar for 1-D input, a vector for 2-D. -/
inductive CMResult where
  | scalar : ℕ → CMResult
  | vector : List ℤ → CMResult
  deriving DecidableEq, Repr

/-- `count_missing` (lines 46-98): `TypeError` for non-TimeSeries input,
`len - count` for 1-D input, `NotImplementedError` for rank > 2, and the
2-D dispatch otherwise. -/
def count_missing (x : CMInput) : Except TSError CMResult :=
  match x with
  | CMInput.notTS => .error TSError.typeError
  | CMInput.ts1 mask => .ok (CMResult.scalar ((mask.filter (fun b => b = true)).length))
  | CMInput.tsHigh => .error TSError.notImplementedError
  | CMInput.ts2 s => (count_missing2 s).map CMResult.vector

deriving instance DecidableEq for Except

/-- `np.round(a/b, 0)` for integers `a`, `b` with `b > 0`: round the
rational `a/b` to the nearest integer, ties to even (IEEE round-half-even,
which numpy uses).  `a.fdiv b` is the mathematical floor of `a/b` and
`r = a - f*b ∈ [0, b)` its fractional part scaled by `b`, so comparing
`2*r` against `b` compares the fractional part against one half. -/
def np_round_frac (a b : ℤ) : ℤ :=
  let f : ℤ := a.fdiv b
  let r : ℤ := a - f * b
  if 2 * r < b then f
  else if b < 2 * r then f + 1
  else if f % 2 = 0 then f else f + 1

/-- `np.round(x * w, 0)` (line 187) computed on the fraction
`(x.num * w) / x.den`, which equals the rational `x * w`. -/
def np_round_scaled (x : ℚ) (w : ℕ) : ℤ :=
  np_round_frac (x.num * (w : ℤ)) (x.den : ℤ)

/-- `series[rows] = masked` on one selected row: every slot becomes missing
(numpy.ma sets the mask and leaves the data buffer untouched). -/
def maskRow (r : TSRow) : TSRow :=
  { r with mask := r.mask.map (fun _ => true) }

/-- `accept_atmost_missing` (lines 158-194) on a 2-D series: compute the
per-row missing counts via `count_missing`, convert a fractional
`max_missing` through `np.round(max_missing * series.shape[-1], 0)`, then
mask every row whose count exceeds (strict) or reaches (non-strict) the
threshold. -/
def accept_atmost_missing (s : TS2) (max_missing : ℚ) (strict : Bool) :
    Except TSError TS2 :=
  (count_missing2 s).map (fun missing =>
    let mm : ℚ :=
      if max_missing < 1 then ((np_round_scaled max_missing s.width : ℤ) : ℚ)
      else max_missing
    { s with
        rows := (s.rows.zip missing).map (fun p =>
          if (if strict then mm < ((p.2 : ℤ) : ℚ) else mm ≤ ((p.2 : ℤ) : ℚ)) then
            maskRow p.1
          else p.1) })

/-- The threshold conversion as claim C5 words it: a `maxMissing` below 1 is
a fraction of the trailing-axis width, rounded to the nearest integer;
otherwise it is used directly. -/
def effectiveThreshold (mm : ℚ) (width : ℕ) : ℚ :=
  if mm < 1 then ((np_round_scaled mm width : ℤ) : ℚ) else mm

/-- The row-masking test as claim C5 words it. -/
def acceptCond (strict : Bool) (thr : ℚ) (missing : ℤ) : Bool :=
  if strict then decide (thr < (missing : ℚ)) else decide (thr ≤ (missing : ℚ))

/-- Sub-day branch of `guess_freq` (lines 219-228).  The input is the list of
`d.seconds` values (the sub-day component, `0 ≤ d.seconds < 86400`) of the
consecutive gaps of the chronologically sorted dates.  `none` means the
branch is not taken (`incs.any()` is false) and the whole-day classification
(lines 229-245, not needed by any claim) runs instead. -/
def guess_freq_subday (incs : List ℕ) : Option Freq :=
  if incs.any (fun d => d ≠ 0) then
    match incs.min? with
    | none => none
    | some minincs =>
      if 3599 < minincs ∧ ¬(incs.all (fun d => decide (d % 3600 > 0)) = true) then
        some Freq.fr_hr
      else if minincs < 59 then some Freq.fr_sec
      else some Freq.fr_min
  else none

/-- The sub-day classification exactly as claim C4 words it: hourly when the
minimum gap exceeds 3599 seconds and NOT ALL gaps are exact multiples of one
hour; second when the minimum gap is below 59 seconds; minute otherwise.
(Stated from the spec's words, for comparison with `guess_freq_subday`.) -/
def spec_guess_subday (incs : List ℕ) : Option Freq :=
  if incs.any (fun d => d ≠ 0) then
    match incs.min? with
    | none => none
    | some minincs =>
      if 3599 < minincs ∧ ¬(incs.all (fun d => decide (d % 3600 = 0)) = true) then
        some Freq.fr_hr
      else if minincs < 59 then some Freq.fr_sec
      else some Freq.fr_min
  else none

/-- One row of the annual (width `366*m`) series produced by
`series.convert('A')`: the cells (`none` = masked) and the row's year. -/
structure ARow where
  cells : List (Option ℤ)
  year : ℤ
  deriving DecidableEq, Repr

/-- The sub-day multiplier of `convert_to_annual` (lines 139-147):
`baseidx = (59, 60)` scaled by 1, 24, 24*60 or 24*3600 according to the
frequency; `none` for coarser-than-daily frequencies (which take the
`series.convert('A')` shortcut of line 138). -/
def subdayMult : Freq → Option ℕ
  | Freq.fr_day => some 1
  | Freq.fr_hr => some 24
  | Freq.fr_min => some (24 * 60)
  | Freq.fr_sec => some (24 * 3600)
  | _ => none

/-- Lines 150-152 of `convert_to_annual`, acting on one row of the converted
annual series (row width `366*m`, `idx0228 = 59*m`, `idx0301 = 60*m`):
for a non-leap row,
`aseries[i, idx0301:] = aseries[i, idx0228:idx0228-idx0301]` followed by
`aseries[i, idx0228:idx0301] = ma.masked`; leap rows are untouched.
The negative slice stop `idx0228 - idx0301 = -m` addresses `len - m`,
i.e. the source slice is `[59*m, 365*m)` when the row has width `366*m`. -/
def annualShiftRow (m : ℕ) (r : ARow) : ARow :=
  if isleapyear r.year = true then r
  else
    let w := 366 * m
    let c1 := r.cells.take (60 * m) ++ (r.cells.drop (59 * m)).take (w - 60 * m)
    let c2 := c1.take (59 * m) ++ List.replicate (60 * m - 59 * m) (none : Option ℤ)
                ++ c1.drop (60 * m)
    { r with cells := c2 }

/-- The leap-day fix-up of `convert_to_annual` over all rows of the converted
annual series (lines 149-152). -/
def convert_to_annual_adjust (m : ℕ) (rows : List ARow) : List ARow :=
  rows.map (annualShiftRow m)

/-- Character-list test used by `matchesDates`. -/
def isPrefixCh : List Char → List Char → Bool
  | [], _ => true
  | _ :: _, [] => false
  | p :: ps, c :: cs => p == c && isPrefixCh ps cs

/-- Substring search over character lists. -/
def hasSubCh (pat : List Char) : List Char → Bool
  | [] => isPrefixCh pat []
  | c :: cs => isPrefixCh pat (c :: cs) || hasSubCh pat cs

/-- The date-column name test of `tsfromtxt` (line 416):
`re.compile("'?_?dates?'?", re.IGNORECASE).search(name)`.  Every pattern
character except the literal `date` is optional, so the search succeeds
exactly when `date` occurs case-insensitively as a substring of the name. -/
def matchesDates (name : String) : Bool :=
  hasSubCh ['d', 'a', 't', 'e'] (name.toList.map Char.toLower)

/-- The date-column resolution of `tsfromtxt`: line 377 raises `TypeError`
when `dtype` is given without `datecols`; lines 414-420 search the field
names for the date pattern when `datecols` is absent and raise `TypeError`
when nothing matches. -/
def resolve_datecols (dtypeGiven : Bool) (datecols : Option (List ℕ))
    (names : Option (List String)) : Except TSError (List ℕ) :=
  if dtypeGiven = true ∧ datecols = none then .error TSError.typeError
  else
    match datecols with
    | some dc => .ok dc
    | none =>
      let found := ((names.getD []).enum.filter (fun p => matchesDates p.2)).map
        (fun p => p.1)
      if found = [] then .error TSError.typeError else .ok found

/-- The chronological re-sort of `tsfromtxt` (lines 438-441):
`sortidx = dates.argsort(); dates = dates[sortidx]; mrec = mrec[sortidx]`.
`argsort` is embedded as an insertion sort of the index list by date value;
the same index permutation is applied to the dates and to the data rows. -/
def tsSortIdx (dates : List ℤ) : List ℕ :=
  (List.range dates.length).insertionSort (fun i j => dates.getD i 0 ≤ dates.getD j 0)

/-- Dates and payload rows after the re-sort of `tsfromtxt` lines 438-441. -/
def tsfromtxt_sort (dates : List ℤ) (rows : List (List ℤ)) :
    List ℤ × List (List ℤ) :=
  let idx := tsSortIdx dates
  (idx.map (fun i => dates.getD i 0), idx.map (fun i => rows.getD i []))

/-- A store of numpy mask buffers; an index into `bufs` is a buffer
identity.  Used to settle the aliasing claims about
`accept_atmost_missing`. -/
structure MaskStore where
  bufs : List (List (List Bool))
  deriving DecidableEq, Repr

/-- A 2-D TimeSeries whose mask lives in a `MaskStore` buffer (the mask may
be shared with other views); the remaining fields are plain values. -/
structure HeapSeries where
  maskRef : ℕ
  width : ℕ
  freq : Freq
  data : List (List ℤ)
  years : List ℤ
  months : List ℤ
  deriving DecidableEq, Repr

/-- In-place write of one mask buffer (what a subsequent in-place edit of a
series' mask does to the store). -/
def writeBuf (st : MaskStore) (ref : ℕ) (contents : List (List Bool)) : MaskStore :=
  ⟨st.bufs.set ref contents⟩

/-- Assemble the pure `TS2` value a `HeapSeries` denotes under a given mask
matrix. -/
def assembleTS2 (h : HeapSeries) (mask : List (List Bool)) : TS2 :=
  { width := h.width
    freq := h.freq
    rows := (List.range h.years.length).map (fun i =>
      { data := h.data.getD i []
        mask := mask.getD i []
        year := h.years.getD i 0
        month := h.months.getD i 0 }) }

/-- `accept_atmost_missing` with the mask storage made explicit.
Modelled from the spec: the numpy.ma collaborators are not in the sources;
per the spec, `np.array(series, copy=True, subok=True)` (line 179) copies
the data but may leave the mask buffer shared with the input, and
`series.unshare_mask()` (line 189) allocates a freshly owned mask buffer
holding a copy before the row-masking writes of lines 190-193 touch it. -/
def accept_atmost_missing_heap (st : MaskStore) (h : HeapSeries) (mm : ℚ)
    (strict : Bool) : Except TSError (MaskStore × HeapSeries) :=
  let curMask := st.bufs.getD h.maskRef []
  let freshRef := st.bufs.length
  let st1 : MaskStore := ⟨st.bufs ++ [curMask]⟩
  (accept_atmost_missing (assembleTS2 h curMask) mm strict).map (fun result =>
    (writeBuf st1 freshRef (result.rows.map (fun r => r.mask)),
     { h with maskRef := freshRef }))

/-- Claim C1's per-row quarterly correction, summarising `qtrAdjust` as a
subtraction. -/
def qtrCorr (c : QtrClass) (r : TSRow) : ℤ :=
  match c with
  | QtrClass.janC =>
    (if r.month = 4 then 2 else 0)
      + (if r.month = 4 ∧ isleapyear r.year = false then 1 else 0)
  | QtrClass.febC =>
    (if r.month = 2 ∨ r.month = 11 then 1 else 0)
      + (if r.month = 2 ∧ isleapyear r.year = false then 1 else 0)
  | QtrClass.marC =>
    (if r.month = 3 ∨ r.month = 6 then 1 else 0)
      + (if r.month = 3 ∧ isleapyear r.year = false then 1 else 0)

/-- The correction claim C1 asserts for one quarterly row: 1 for the 30-day
month of the quarter, 2 for the variable-length (February-containing) month
plus 1 more when the row's year is not a leap year.  (Stated from the
claim's words, for comparison with `qtrAdjust`.) -/
def claimedQtrCorr (variableMonth thirtyMonth : ℤ) (r : TSRow) : ℤ :=
  (if r.month = thirtyMonth then 1 else 0)
    + (if r.month = variableMonth then
         2 + (if isleapyear r.year = false then 1 else 0)
       else 0)

/-- Calendar month lengths (Gregorian). -/
def daysInMonth (month year : ℤ) : ℤ :=
  if month = 2 then (if isleapyear year then 29 else 28)
  else if month = 4 ∨ month = 6 ∨ month = 9 ∨ month = 11 then 30
  else 31

/-- A mask with `a` observed slots followed by `b` missing slots. -/
def padMask (a b : ℕ) : List Bool :=
  List.replicate a false ++ List.replicate b true

/-- Fixture: a monthly/31 row for April 2001 in which only the structural
pad slot is missing. -/
def aprilRow : TSRow := ⟨List.replicate 31 0, padMask 30 1, 2001, 4⟩

/-- Fixture: the monthly/31 series holding just `aprilRow`. -/
def aprilSeries : TS2 := ⟨31, Freq.fr_mth, [aprilRow]⟩

/-- Fixture: a monthly/31 row for February 2004 (leap) in which exactly the
two structural pad slots are missing. -/
def febMthRow : TSRow := ⟨List.replicate 31 0, padMask 29 2, 2004, 2⟩

/-- Fixture: the monthly/31 series holding just `febMthRow`. -/
def febMthSeries : TS2 := ⟨31, Freq.fr_mth, [febMthRow]⟩

/-- Fixture: a fully observed Dec-Jan-Feb quarter ending February 2004
(leap year, 91 days) in a width-92 layout: one structural pad slot. -/
def febQtrRow : TSRow := ⟨List.replicate 92 0, padMask 91 1, 2004, 2⟩

/-- Fixture: the `FR_QTREFEB` series holding just `febQtrRow`. -/
def febQtrSeries : TS2 := ⟨92, Freq.fr_qtrE 2, [febQtrRow]⟩

/-- Fixture: a quarterly series with the July-aligned code `FR_QTREJUL`. -/
def julQtrSeries : TS2 := ⟨92, Freq.fr_qtrE 7, [⟨List.replicate 92 0, padMask 92 0, 2001, 7⟩]⟩

/-- Fixture: a quarter ending November 2001 with 5 genuinely missing
observations on top of the single structural pad slot (87 observed). -/
def novQtrRow : TSRow := ⟨List.replicate 92 0, padMask 87 5, 2001, 11⟩

/-- Fixture: the `FR_QTRSNOV` series holding just `novQtrRow`. -/
def novQtrSeries : TS2 := ⟨92, Freq.fr_qtrS 11, [novQtrRow]⟩

/-- Fixture: a width-12 row with exactly half its slots missing. -/
def halfRow : TSRow := ⟨List.replicate 12 0, padMask 6 6, 2001, 1⟩

/-- Fixture: the width-12 series holding just `halfRow` (width 12 takes the
no-correction branch of `count_missing`). -/
def halfSeries : TS2 := ⟨12, Freq.fr_mth, [halfRow]⟩

/-- Fixture: a fully populated non-leap annual row of width 366 for the
`convert_to_annual` witness (cell k holds value k). -/
def wRow : ARow := ⟨(List.range 366).map (fun k => some (k : ℤ)), 2001⟩

/-- Claim C2's per-row monthly correction, summarising `mthAdjust` as a
subtraction: 1 for a 30-day month, 2 for a leap-year February, 3 for a
non-leap February, 0 for a 31-day month. -/
def mthCorr (r : TSRow) : ℤ :=
  (if r.month = 4 ∨ r.month = 6 ∨ r.month = 9 ∨ r.month = 11 then 1 else 0)
    + (if r.month = 2 then (if isleapyear r.year then 2 else 3) else 0)

/-- The row filtering claim C5 describes: mask exactly the rows whose
missing count reaches the effective threshold. -/
def acceptSpecRows (strict : Bool) (thr : ℚ) (rows : List TSRow)
    (missing : List ℤ) : List TSRow :=
  (rows.zip missing).map (fun p =>
    if acceptCond strict thr p.2 = true then maskRow p.1 else p.1)

/-- Fixture: a single shared mask buffer holding `halfRow`'s mask. -/
def heapStore0 : MaskStore := ⟨[[padMask 6 6]]⟩

/-- Fixture: a heap series referring to `heapStore0`'s only buffer. -/
def heapSeries0 : HeapSeries :=
  ⟨0, 12, Freq.fr_mth, [List.replicate 12 0], [2001], [1]⟩

/-- One row of `accept_atmost_missing`'s masking pass (lines 190-193), with
the effective threshold `mmq` already computed: mask the row iff its missing
count reaches the threshold. -/
def acceptStep (w : ℕ) (adj : TSRow → ℤ → ℤ) (mmq : ℚ) (strict : Bool)
    (r : TSRow) : TSRow :=
  if (if strict then mmq < ((rowMissing w adj r : ℤ) : ℚ)
      else mmq ≤ ((rowMissing w adj r : ℤ) : ℚ)) then maskRow r else r

/-! ### Helper lemmas -/

theorem mthAdjust_eq_corr (r : TSRow) (m : ℤ) : mthAdjust r m = m - mthCorr r := by
  unfold mthAdjust mthCorr
  rcases hl : isleapyear r.year <;> split_ifs <;> simp_all <;> omega

theorem qtrAdjust_eq_corr (c : QtrClass) (r : TSRow) (m : ℤ) :
    qtrAdjust c r m = m - qtrCorr c r := by
  unfold qtrAdjust qtrCorr
  cases c <;> split_ifs <;> simp_all <;> omega

theorem zip_map_self {α β γ : Type} (l : List α) (f : α → β) (g : α × β → γ) :
    (l.zip (l.map f)).map g = l.map (fun a => g (a, f a)) := by
  induction l with
  | nil => rfl
  | cons a t ih => simp [List.zip_cons_cons, ih]

theorem map_getD_range {α : Type} (l : List α) (d : α) :
    (List.range l.length).map (fun i => l.getD i d) = l := by
  induction l with
  | nil => rfl
  | cons a t ih =>
    rw [List.length_cons, List.range_succ_eq_map, List.map_cons, List.map_map]
    refine congrArg₂ List.cons (by simp) ?_
    calc (List.range t.length).map ((fun i => (a :: t).getD i d) ∘ Nat.succ)
        = (List.range t.length).map (fun i => t.getD i d) := by
          refine List.map_congr_left (fun i _ => ?_)
          simp [List.getD_cons_succ]
      _ = t := ih

/-! ### C10 -/

/-- C10: `isleapyear` returns true iff `year % 400 == 0`, or `year % 4 == 0`
and `year % 100 != 0`; it acts element-wise over sequences; and
`isleapyear 2000 = true`, `isleapyear 1900 = false`, `isleapyear 2004 = true`,
`isleapyear 2001 = false`. -/
theorem C10_isleapyear :
    (∀ y : ℤ, isleapyear y = true ↔ (y % 400 = 0 ∨ (y % 4 = 0 ∧ y % 100 ≠ 0)))
    ∧ (∀ ys : List ℤ, isleapyears ys = ys.map isleapyear)
    ∧ isleapyear 2000 = true ∧ isleapyear 1900 = false
    ∧ isleapyear 2004 = true ∧ isleapyear 2001 = false := by
  refine ⟨fun y => ?_, fun ys => rfl, by decide, by decide, by decide, by decide⟩
  have h100 : 0 ≤ y % 100 := Int.emod_nonneg y (by norm_num)
  unfold isleapyear
  simp only [Bool.or_eq_true, Bool.and_eq_true, beq_iff_eq, decide_eq_true_eq]
  constructor
  · rintro (h | ⟨h4, hp⟩)
    · exact Or.inl h
    · exact Or.inr ⟨h4, by omega⟩
  · rintro (h | ⟨h4, hne⟩)
    · exact Or.inl h
    · exact Or.inr ⟨h4, by omega⟩

/-! ### C2 -/

/-- C2 counterexample: a monthly/31 series (April 2001) in which only the
structural pad slot is missing; `count_missing` returns 0 for the row, not
the 1 the claim requires for a 30-day month. -/
theorem C2_counterexample :
    count_missing2 aprilSeries = .ok [0] ∧ count_missing2 aprilSeries ≠ .ok [1] := by
  exact ⟨by decide, by decide⟩

/-- C2 amended: for a monthly/31 series in which no slot holding real data
is missing (each row's observed count equals its month's length),
`count_missing` returns 0 for every row; the values 1 (30-day month),
2 (leap February), 3 (non-leap February), 0 (31-day month) are the
structural corrections it subtracts, as `mthAdjust r m = m - mthCorr r`. -/
theorem C2_amended :
    (∀ (r : TSRow) (m : ℤ), mthAdjust r m = m - mthCorr r)
    ∧ (∀ s : TS2, s.width = 31 → s.freq = Freq.fr_mth →
        (∀ r ∈ s.rows, 1 ≤ r.month ∧ r.month ≤ 12
          ∧ (countRow r : ℤ) = daysInMonth r.month r.year) →
        count_missing2 s = .ok (s.rows.map (fun _ => (0 : ℤ)))) := by
  refine ⟨mthAdjust_eq_corr, fun s hw hf hrows => ?_⟩
  obtain ⟨w, f, rows⟩ := s
  simp only at hw hf
  subst hw hf
  have hadj : cmAdjust 31 Freq.fr_mth = .ok mthAdjust := rfl
  simp only [count_missing2, hadj, Except.map]
  refine congrArg Except.ok ?_
  refine List.map_congr_left (fun r hr => ?_)
  obtain ⟨hm1, hm2, hcnt⟩ := hrows r hr
  obtain ⟨dat, msk, yr, mo⟩ := r
  simp only at hm1 hm2 hcnt ⊢
  rw [rowMissing, mthAdjust_eq_corr, hcnt]
  unfold mthCorr daysInMonth
  simp only
  interval_cases mo <;>
    (rcases hl : isleapyear yr <;> simp_all <;> omega)

/-- C2 witness: the amended statement applied to the February-2004
(leap-year) fixture, whose 29 observed slots match the month length. -/
theorem C2_witness : count_missing2 febMthSeries = .ok [0] := by
  have h := C2_amended.2 febMthSeries rfl rfl (by decide)
  rw [h]; decide

/-! ### C1 -/

/-- C1 counterexample: for the `FR_QTREFEB` series `febQtrSeries` (fully
observed Dec-Jan-Feb quarter ending February 2004, one structural pad slot)
the code subtracts 1, returning 0; the claim's correction (2 for the
variable-length month in a leap year) would give -1.  Moreover the
July-aligned quarterly code is not processed at all: it matches none of the
three class tuples (the first tuple lists the October codes twice instead),
so line 95 raises `UnboundLocalError`. -/
theorem C1_counterexample :
    count_missing2 febQtrSeries = .ok [0]
    ∧ (92 : ℤ) - (countRow febQtrRow : ℤ) - claimedQtrCorr 2 11 febQtrRow = -1
    ∧ count_missing2 julQtrSeries = .error TSError.unboundLocalError := by
  exact ⟨by decide, by decide, by decide⟩

/-- C1 amended: for quarterly width-92 series, the codes whose fiscal month
is July are unhandled (the engine stops with an unbound-local error); the
other codes fall in class {Jan,Apr,Oct}, {Feb,May,Aug,Nov} or
{Mar,Jun,Sep,Dec}, and per row the engine subtracts `qtrCorr`: class 1
subtracts 2 on month-4 rows; class 2 subtracts 1 on month-2 and month-11
rows; class 3 subtracts 1 on month-3 and month-6 rows; each class subtracts
1 more on its February-containing row (month 4, 2, 3 respectively) when the
row's year - read from the date metadata - is not a leap year. -/
theorem C1_amended :
    (∀ s : TS2, s.width = 92 → isQtrGroup s.freq = true →
      (qtrClass s.freq = none → count_missing2 s = .error TSError.unboundLocalError)
      ∧ (∀ c : QtrClass, qtrClass s.freq = some c →
          count_missing2 s =
            .ok (s.rows.map (fun r => (92 : ℤ) - (countRow r : ℤ) - qtrCorr c r))))
    ∧ (∀ m : ℤ, 1 ≤ m → m ≤ 12 →
        (qtrClass (Freq.fr_qtrE m) = qtrClass (Freq.fr_qtrS m))
        ∧ (qtrClass (Freq.fr_qtrE m) = none ↔ m = 7)
        ∧ (qtrClass (Freq.fr_qtrE m) = some QtrClass.janC ↔ (m = 1 ∨ m = 4 ∨ m = 10))
        ∧ (qtrClass (Freq.fr_qtrE m) = some QtrClass.febC
            ↔ (m = 2 ∨ m = 5 ∨ m = 8 ∨ m = 11))
        ∧ (qtrClass (Freq.fr_qtrE m) = some QtrClass.marC
            ↔ (m = 3 ∨ m = 6 ∨ m = 9 ∨ m = 12))) := by
  constructor
  · intro s hw hq
    obtain ⟨w, f, rows⟩ := s
    simp only at hw hq ⊢
    subst hw
    constructor
    · intro hnone
      simp only [count_missing2, cmAdjust, hq, hnone]
      rfl
    · intro c hsome
      simp only [count_missing2, cmAdjust, hq, hsome]
      show Except.ok _ = Except.ok _
      refine congrArg Except.ok ?_
      refine List.map_congr_left (fun r hr => ?_)
      simp only [rowMissing, qtrAdjust_eq_corr]
      norm_num
  · intro m h1 h2
    interval_cases m <;> refine ⟨rfl, by decide, by decide, by decide, by decide⟩

/-- C1 witness: the amended statement applied to the `FR_QTRSNOV` fixture
(class 2, quarter ending November 2001, 5 real missing values plus one pad
slot): the engine subtracts 1 and reports 4. -/
theorem C1_witness : count_missing2 novQtrSeries = .ok [4] := by
  have h := (C1_amended.1 novQtrSeries rfl rfl).2 QtrClass.febC (by decide)
  rw [h]; decide

/-! ### C4 -/

/-- C4 counterexample: gaps of exactly one hour (3600 s).  The code returns
hourly (its condition is "some gap IS an exact multiple of one hour"), while
the claim's wording ("not all gaps are exact multiples of one hour") rejects
hourly here and falls through to minute. -/
theorem C4_counterexample :
    guess_freq_subday [3600] = some Freq.fr_hr
    ∧ spec_guess_subday [3600] = some Freq.fr_min := by
  exact ⟨by decide, by decide⟩

/-- C4 amended: on gaps with at least one non-zero sub-day component, the
classification is hourly when the minimum exceeds 3599 seconds and at least
one gap is an exact multiple of one hour (equivalently: not all gaps FAIL to
be multiples), second when the minimum is below 59 seconds, minute
otherwise. -/
theorem C4_amended :
    ∀ (incs : List ℕ) (mv : ℕ),
      incs.min? = some mv →
      incs.any (fun d => d ≠ 0) = true →
      guess_freq_subday incs =
        some (if 3599 < mv ∧ (∃ d ∈ incs, d % 3600 = 0) then Freq.fr_hr
              else if mv < 59 then Freq.fr_sec
              else Freq.fr_min) := by
  intro incs mv hmin hany
  unfold guess_freq_subday
  rw [if_pos hany, hmin]
  have hiff : (¬(incs.all (fun d => decide (d % 3600 > 0)) = true))
      ↔ (∃ d ∈ incs, d % 3600 = 0) := by
    rw [List.all_eq_true]
    push_neg
    constructor
    · rintro ⟨d, hd, hfail⟩
      exact ⟨d, hd, by simpa using hfail⟩
    · rintro ⟨d, hd, hzero⟩
      exact ⟨d, hd, by simp [hzero]⟩
  show (if 3599 < mv ∧ ¬(incs.all (fun d => decide (d % 3600 > 0)) = true) then
          some Freq.fr_hr
        else if mv < 59 then some Freq.fr_sec else some Freq.fr_min)
      = some (if 3599 < mv ∧ (∃ d ∈ incs, d % 3600 = 0) then Freq.fr_hr
              else if mv < 59 then Freq.fr_sec else Freq.fr_min)
  simp only [hiff]
  split_ifs <;> rfl

/-- C4 witness: the amended statement applied to gaps of 2 and 1 hours. -/
theorem C4_witness :
    guess_freq_subday [7200, 3600] =
      some (if 3599 < 3600 ∧ (∃ d ∈ [7200, 3600], d % 3600 = 0) then Freq.fr_hr
            else if 3600 < 59 then Freq.fr_sec
            else Freq.fr_min) :=
  C4_amended [7200, 3600] 3600 (by decide) (by decide)

/-! ### C8 -/

theorem filter_map_eq_nil {α β : Type} (l : List α) (p : α → Bool) (g : α → β) :
    ((l.filter p).map g = []) ↔ ∀ a ∈ l, p a = false := by
  induction l with
  | nil => simp
  | cons a t ih => by_cases h : p a <;> simp [List.filter_cons, h, ih]

theorem forall_enumFrom_snd {α : Type} (l : List α) (n : ℕ) (P : α → Prop) :
    (∀ q ∈ l.enumFrom n, P q.2) ↔ (∀ a ∈ l, P a) := by
  induction l generalizing n with
  | nil => simp
  | cons a t ih =>
    simp only [List.enumFrom, List.mem_cons, forall_eq_or_imp]
    constructor
    · rintro ⟨ha, hrest⟩
      exact ⟨ha, (ih (n + 1)).mp hrest⟩
    · rintro ⟨ha, hrest⟩
      exact ⟨ha, (ih (n + 1)).mpr hrest⟩

/-- C8: `count_missing` raises `TypeError` exactly on non-TimeSeries input;
1-D input always succeeds; rank > 2 raises `NotImplementedError`; a 2-D
series raises `NotImplementedError` exactly when its width/frequency pair is
none of annual/366, monthly/31, quarterly/92 and its width is neither 12
nor 7 (a quarterly/92 July code instead dies with an unbound-local error,
which is neither exception); `tsfromtxt`'s date-column resolution raises
`TypeError` exactly when `dtype` was given without date columns, or no date
columns were given and no field name matches the date pattern.  All failures
are values of `Except.error`: no partial result accompanies them. -/
theorem C8_errors :
    (count_missing CMInput.notTS = .error TSError.typeError)
    ∧ (∀ mask : List Bool, count_missing (CMInput.ts1 mask)
        = .ok (CMResult.scalar ((mask.filter (fun b => b = true)).length)))
    ∧ (count_missing CMInput.tsHigh = .error TSError.notImplementedError)
    ∧ (∀ s : TS2, count_missing (CMInput.ts2 s) ≠ .error TSError.typeError)
    ∧ (∀ s : TS2, count_missing (CMInput.ts2 s) = .error TSError.notImplementedError ↔
        (¬(s.width = 366 ∧ isAnnGroup s.freq = true)
         ∧ ¬(s.width = 31 ∧ isMthGroup s.freq = true)
         ∧ ¬(s.width = 92 ∧ isQtrGroup s.freq = true)
         ∧ ¬(s.width = 12 ∨ s.width = 7)))
    ∧ (∀ (dt : Bool) (names : Option (List String)),
        resolve_datecols dt none names = .error TSError.typeError ↔
          (dt = true ∨ (names.getD []).all (fun n => matchesDates n = false) = true))
    ∧ (∀ (dt : Bool) (dc : List ℕ) (names : Option (List String)),
        resolve_datecols dt (some dc) names = .ok dc) := by
  refine ⟨rfl, fun mask => rfl, rfl, fun s => ?_, fun s => ?_, fun dt names => ?_, ?_⟩
  · simp only [count_missing, count_missing2, cmAdjust]
    split_ifs <;> (try cases hq : qtrClass s.freq) <;> simp [Except.map]
  · simp only [count_missing, count_missing2, cmAdjust]
    split_ifs with h1 h2 h3 h4 <;>
      simp_all [Except.map]
    cases hq : qtrClass s.freq <;> simp [Except.map]
  · unfold resolve_datecols
    cases dt
    case true => simp
    case false =>
      simp only [Bool.false_eq_true, false_and, if_false, false_or]
      rcases names with _ | ns
      · simp
      · simp only [Option.getD]
        rw [show (List.enum ns) = ns.enumFrom 0 from rfl]
        constructor
        · intro h
          split_ifs at h with hfound
          · rw [List.all_eq_true]
            intro n hn
            have := (filter_map_eq_nil (ns.enumFrom 0) (fun p => matchesDates p.2)
              (fun p => p.1)).mp hfound
            have hres := (forall_enumFrom_snd ns 0
              (fun a => matchesDates a = false)).mp (fun q hq => this q hq) n hn
            simpa using hres
        · intro h
          have hall := List.all_eq_true.mp h
          have hnil : ((ns.enumFrom 0).filter (fun p => matchesDates p.2)).map
              (fun p => p.1) = [] := by
            rw [filter_map_eq_nil]
            exact (forall_enumFrom_snd ns 0 (fun a => matchesDates a = false)).mpr
              (fun n hn => by simpa using hall n hn)
          simp [hnil]
  · intro dt dc names
    unfold resolve_datecols
    simp

/-! ### C9 -/

/-- C9 counterexample: out-of-order input with a duplicate date.  The
re-sorted date sequence `[1, 1, 3]` is non-decreasing but not strictly
ascending; the payload follows the same permutation. -/
theorem C9_counterexample :
    (tsfromtxt_sort [3, 1, 1] [[10], [20], [30]]).1 = [1, 1, 3]
    ∧ ¬ List.Sorted (· < ·) (tsfromtxt_sort [3, 1, 1] [[10], [20], [30]]).1
    ∧ (tsfromtxt_sort [3, 1, 1] [[10], [20], [30]]).2 = [[20], [30], [10]] := by
  refine ⟨by decide, ?_, by decide⟩
  rw [show (tsfromtxt_sort [3, 1, 1] [[10], [20], [30]]).1 = [1, 1, 3] from by decide]
  intro h
  exact absurd (List.rel_of_sorted_cons h 1 (by simp)) (by omega)

/-- C9 amended: `tsfromtxt` permutes the dates and the payload rows by one
and the same index permutation (`tsSortIdx`, a permutation of the row
indices); the resulting date sequence is sorted non-decreasingly, a
permutation of the input dates, and strictly ascending whenever the input
dates are pairwise distinct. -/
theorem C9_amended :
    ∀ (dates : List ℤ) (rows : List (List ℤ)),
      (tsSortIdx dates).Perm (List.range dates.length)
      ∧ (tsfromtxt_sort dates rows).1 = (tsSortIdx dates).map (fun i => dates.getD i 0)
      ∧ (tsfromtxt_sort dates rows).2 = (tsSortIdx dates).map (fun i => rows.getD i [])
      ∧ (tsfromtxt_sort dates rows).1.Perm dates
      ∧ List.Sorted (· ≤ ·) (tsfromtxt_sort dates rows).1
      ∧ (dates.Nodup → List.Sorted (· < ·) (tsfromtxt_sort dates rows).1) := by
  intro dates rows
  have hperm : (tsSortIdx dates).Perm (List.range dates.length) :=
    List.perm_insertionSort _ _
  have hp1 : (tsfromtxt_sort dates rows).1
      = (tsSortIdx dates).map (fun i => dates.getD i 0) := rfl
  have hpermd : (tsfromtxt_sort dates rows).1.Perm dates := by
    rw [hp1]
    have := hperm.map (fun i => dates.getD i 0)
    rw [map_getD_range dates 0] at this
    exact this
  haveI htot : IsTotal ℕ (fun i j => dates.getD i 0 ≤ dates.getD j 0) :=
    ⟨fun a b => le_total _ _⟩
  haveI htrans : IsTrans ℕ (fun i j => dates.getD i 0 ≤ dates.getD j 0) :=
    ⟨fun a b c hab hbc => le_trans hab hbc⟩
  have hsortedIdx : List.Sorted (fun i j => dates.getD i 0 ≤ dates.getD j 0)
      (tsSortIdx dates) := List.sorted_insertionSort _ _
  have hsorted : List.Sorted (· ≤ ·) (tsfromtxt_sort dates rows).1 := by
    rw [hp1]
    exact List.pairwise_map.mpr hsortedIdx
  refine ⟨hperm, hp1, rfl, hpermd, hsorted, fun hnodup => ?_⟩
  have hnodup' : (tsfromtxt_sort dates rows).1.Nodup :=
    (List.Perm.nodup_iff hpermd).mpr hnodup
  exact (hsorted.and hnodup').imp (fun hab => lt_of_le_of_ne hab.1 hab.2)

/-- C9 witness: the amended statement applied to distinct out-of-order
dates `[3, 1, 2]`: the result is strictly ascending and a permutation of
the input. -/
theorem C9_witness :
    List.Sorted (· < ·) (tsfromtxt_sort [3, 1, 2] [[10], [20], [30]]).1
    ∧ (tsfromtxt_sort [3, 1, 2] [[10], [20], [30]]).1.Perm [3, 1, 2] := by
  have h := C9_amended [3, 1, 2] [[10], [20], [30]]
  exact ⟨h.2.2.2.2.2 (by decide), h.2.2.2.1⟩

/-! ### C3 -/

/-- C3: `convert_to_annual`'s leap-day fix-up.  The sub-day multiplier is
1/24/1440/86400 for daily/hourly/minute/second data; the fix-up maps
`annualShiftRow` over the rows; a leap-year row is untouched; and for a
non-leap row of width `366*m` the result keeps slots below `idxFeb28 = 59*m`
unchanged, masks exactly `[59*m, 60*m)` (the Feb-29 region), and moves the
data of slots `[59*m, 365*m)` into `[60*m, 366*m)` (slot `k` receives the
old slot `k - m`), so each column keeps one Jan-1-relative meaning across
leap and non-leap rows. -/
theorem C3_annual_shift :
    (subdayMult Freq.fr_day = some 1 ∧ subdayMult Freq.fr_hr = some 24
      ∧ subdayMult Freq.fr_min = some 1440 ∧ subdayMult Freq.fr_sec = some 86400)
    ∧ (∀ (m : ℕ) (rows : List ARow),
        convert_to_annual_adjust m rows = rows.map (annualShiftRow m))
    ∧ (∀ (m : ℕ) (r : ARow), isleapyear r.year = true → annualShiftRow m r = r)
    ∧ (∀ (m : ℕ) (r : ARow), 0 < m → r.cells.length = 366 * m →
        isleapyear r.year = false →
        (annualShiftRow m r).year = r.year
        ∧ (annualShiftRow m r).cells.length = 366 * m
        ∧ (∀ k : ℕ, k < 366 * m →
            (annualShiftRow m r).cells.getD k none =
              (if k < 59 * m then r.cells.getD k none
               else if k < 60 * m then none
               else r.cells.getD (k - m) none))) := by
  refine ⟨⟨rfl, rfl, rfl, rfl⟩, fun m rows => rfl, fun m r hleap => ?_, ?_⟩
  · unfold annualShiftRow
    rw [if_pos hleap]
  intro m r hm hlen hleap
  unfold annualShiftRow
  rw [if_neg (by simp [hleap])]
  simp only
  set cells := r.cells with hcells
  set c1 : List (Option ℤ) :=
    cells.take (60 * m) ++ (cells.drop (59 * m)).take (366 * m - 60 * m) with hc1
  have hlen_t60 : (cells.take (60 * m)).length = 60 * m := by
    rw [List.length_take, hlen]; omega
  have hlen_d59 : (cells.drop (59 * m)).length = 366 * m - 59 * m := by
    rw [List.length_drop, hlen]
  have hlen_c1 : c1.length = 366 * m := by
    rw [hc1, List.length_append, hlen_t60, List.length_take, hlen_d59]; omega
  have hc1_get : ∀ k : ℕ, k < 366 * m →
      c1[k]? = if k < 60 * m then cells[k]? else cells[k - m]? := by
    intro k hk
    by_cases h60 : k < 60 * m
    · rw [if_pos h60, hc1, List.getElem?_append_left (by omega),
        List.getElem?_take, if_pos h60]
    · rw [if_neg h60, hc1, List.getElem?_append_right (by omega), hlen_t60,
        List.getElem?_take, if_pos (by omega), List.getElem?_drop]
      refine congrArg (fun i => cells[i]?) ?_
      omega
  have hlen_t59 : (c1.take (59 * m)).length = 59 * m := by
    rw [List.length_take, hlen_c1]; omega
  have hlen_c2a : (c1.take (59 * m)
      ++ List.replicate (60 * m - 59 * m) (none : Option ℤ)).length = 60 * m := by
    rw [List.length_append, hlen_t59, List.length_replicate]; omega
  refine ⟨by trivial, ?_, ?_⟩
  · rw [List.length_append, hlen_c2a, List.length_drop, hlen_c1]
    omega
  intro k hk
  simp only [List.getD_eq_getElem?_getD]
  by_cases h59 : k < 59 * m
  · rw [List.getElem?_append_left (by rw [hlen_c2a]; omega),
      List.getElem?_append_left (by rw [hlen_t59]; omega),
      List.getElem?_take, if_pos h59, hc1_get k hk, if_pos (by omega), if_pos h59]
  · by_cases h60 : k < 60 * m
    · rw [List.getElem?_append_left (by rw [hlen_c2a]; omega),
        List.getElem?_append_right (by rw [hlen_t59]; omega), hlen_t59,
        List.getElem?_replicate, if_pos (by omega), if_neg h59, if_pos h60]
      rfl
    · rw [List.getElem?_append_right (by rw [hlen_c2a]; omega), hlen_c2a,
        List.getElem?_drop]
      have harith : 60 * m + (k - 60 * m) = k := by omega
      rw [harith, hc1_get k hk, if_neg h60, if_neg h59, if_neg h60]

/-- C3 witness: the non-leap characterization applied at `m = 1` to the
fully populated 2001 row `wRow` (cell `k` holds `k`), sampled at the
boundary columns 58, 59, 60 and 365. -/
theorem C3_witness :
    (annualShiftRow 1 wRow).cells.getD 58 none =
      (if 58 < 59 * 1 then wRow.cells.getD 58 none
       else if 58 < 60 * 1 then none else wRow.cells.getD (58 - 1) none)
    ∧ (annualShiftRow 1 wRow).cells.getD 59 none =
      (if 59 < 59 * 1 then wRow.cells.getD 59 none
       else if 59 < 60 * 1 then none else wRow.cells.getD (59 - 1) none)
    ∧ (annualShiftRow 1 wRow).cells.getD 60 none =
      (if 60 < 59 * 1 then wRow.cells.getD 60 none
       else if 60 < 60 * 1 then none else wRow.cells.getD (60 - 1) none)
    ∧ (annualShiftRow 1 wRow).cells.getD 365 none =
      (if 365 < 59 * 1 then wRow.cells.getD 365 none
       else if 365 < 60 * 1 then none else wRow.cells.getD (365 - 1) none) := by
  have h := C3_annual_shift.2.2.2 1 wRow (by decide) (by decide) (by decide)
  exact ⟨h.2.2 58 (by decide), h.2.2 59 (by decide), h.2.2 60 (by decide),
    h.2.2 365 (by decide)⟩

/-! ### C5 -/

/-- C5: `accept_atmost_missing` masks a row entirely iff its missing count
(per `count_missing`) reaches the effective threshold - strictly greater
when `strict`, greater-or-equal otherwise - where a `max_missing` below 1 is
first converted to `np.round(max_missing * width)` and `np_round_frac`
really is a nearest-integer rounding (the remainder it leaves has magnitude
at most half the denominator); in particular, a width-12 row with exactly
half its slots missing is masked under threshold 1/2 when non-strict and
left untouched when strict. -/
theorem C5_accept :
    (∀ (s : TS2) (mm : ℚ) (strict : Bool) (missing : List ℤ),
      count_missing2 s = .ok missing →
      accept_atmost_missing s mm strict =
        .ok { s with
                rows := acceptSpecRows strict (effectiveThreshold mm s.width)
                  s.rows missing })
    ∧ (∀ a b : ℤ, 0 < b →
        -b ≤ 2 * (a - np_round_frac a b * b) ∧ 2 * (a - np_round_frac a b * b) ≤ b)
    ∧ accept_atmost_missing halfSeries (mkRat 1 2) false
        = .ok ⟨12, Freq.fr_mth, [maskRow halfRow]⟩
    ∧ accept_atmost_missing halfSeries (mkRat 1 2) true = .ok halfSeries := by
  refine ⟨?_, ?_, by decide, by decide⟩
  · intro s mm strict missing h
    obtain ⟨w, f, rows⟩ := s
    unfold accept_atmost_missing
    rw [h]
    show Except.ok _ = Except.ok _
    refine congrArg Except.ok ?_
    show TS2.mk w f _ = TS2.mk w f _
    refine congrArg (TS2.mk w f) ?_
    unfold acceptSpecRows
    refine List.map_congr_left (fun p _ => ?_)
    cases strict <;>
      simp [acceptCond, effectiveThreshold, decide_eq_true_eq]
  · intro a b hb
    have hfd : a.fdiv b = a / b := Int.fdiv_eq_ediv a (le_of_lt hb)
    have hdm := Int.ediv_add_emod a b
    rw [mul_comm] at hdm
    have hm0 : 0 ≤ a % b := Int.emod_nonneg a (by omega)
    have hmb : a % b < b := Int.emod_lt_of_pos a hb
    unfold np_round_frac
    rw [hfd]
    dsimp only
    set q := a / b with hq
    have hsucc : (q + 1) * b = q * b + b := by ring
    split_ifs <;> (try simp only [hsucc]) <;> omega

/-- C5 witness: the masking characterization applied to `halfSeries`
(width 12, missing count 6) at threshold 1/2, non-strict. -/
theorem C5_witness :
    accept_atmost_missing halfSeries (mkRat 1 2) false =
      .ok { halfSeries with
              rows := acceptSpecRows false
                (effectiveThreshold (mkRat 1 2) halfSeries.width)
                halfSeries.rows [6] } :=
  C5_accept.1 halfSeries (mkRat 1 2) false [6] (by decide)

/-! ### C6 -/

/-- C6: `accept_atmost_missing` never mutates its input.  In the mask-store
model, every buffer that existed before the call - in particular the
input's mask buffer, even if shared with other views - holds the same
contents afterwards; the returned series refers to a freshly allocated
buffer (index `st.bufs.length`, distinct from the input's), its remaining
fields equal the input's, and an in-place write through the result's mask
reference cannot change what the input's reference sees. -/
theorem C6_no_mutation :
    ∀ (st : MaskStore) (h : HeapSeries) (mm : ℚ) (strict : Bool)
      (st' : MaskStore) (h' : HeapSeries),
      h.maskRef < st.bufs.length →
      accept_atmost_missing_heap st h mm strict = .ok (st', h') →
      (∀ i, i < st.bufs.length → st'.bufs.getD i [] = st.bufs.getD i [])
      ∧ h'.maskRef = st.bufs.length
      ∧ h'.maskRef ≠ h.maskRef
      ∧ (∀ c, (writeBuf st' h'.maskRef c).bufs.getD h.maskRef []
          = st.bufs.getD h.maskRef [])
      ∧ h'.width = h.width ∧ h'.freq = h.freq ∧ h'.data = h.data
      ∧ h'.years = h.years ∧ h'.months = h.months := by
  intro st h mm strict st' h' href hrun
  unfold accept_atmost_missing_heap at hrun
  dsimp only at hrun
  cases hacc : accept_atmost_missing (assembleTS2 h (st.bufs.getD h.maskRef [])) mm
      strict with
  | error e =>
    rw [hacc] at hrun
    cases hrun
  | ok result =>
    rw [hacc] at hrun
    injection hrun with hpair
    injection hpair with hst hh
    subst hst hh
    have hgetD : ∀ i, i < st.bufs.length →
        (writeBuf ⟨st.bufs ++ [st.bufs.getD h.maskRef []]⟩ st.bufs.length
          (result.rows.map (fun r => r.mask))).bufs.getD i []
          = st.bufs.getD i [] := by
      intro i hi
      unfold writeBuf
      simp only [List.getD_eq_getElem?_getD]
      rw [List.getElem?_set_ne (by omega), List.getElem?_append_left hi]
    refine ⟨hgetD, rfl, by simp only; omega, fun c => ?_, rfl, rfl, rfl, rfl, rfl⟩
    unfold writeBuf
    simp only [List.getD_eq_getElem?_getD]
    rw [List.getElem?_set_ne (by omega), List.getElem?_set_ne (by omega),
      List.getElem?_append_left href]

/-- C6 witness: the frame property applied to the one-buffer store
`heapStore0` and series `heapSeries0`: the pre-existing buffer is unchanged
and the result owns the fresh buffer 1. -/
theorem C6_witness :
    accept_atmost_missing_heap heapStore0 heapSeries0 (mkRat 1 2) false =
      .ok (⟨[[padMask 6 6], [List.replicate 12 true]]⟩,
           ⟨1, 12, Freq.fr_mth, [List.replicate 12 0], [2001], [1]⟩)
    ∧ (⟨[[padMask 6 6], [List.replicate 12 true]]⟩ : MaskStore).bufs.getD 0 []
        = heapStore0.bufs.getD 0 []
    ∧ (1 : ℕ) ≠ heapSeries0.maskRef := by
  have hrun : accept_atmost_missing_heap heapStore0 heapSeries0 (mkRat 1 2) false =
      .ok (⟨[[padMask 6 6], [List.replicate 12 true]]⟩,
           ⟨1, 12, Freq.fr_mth, [List.replicate 12 0], [2001], [1]⟩) := by decide
  have h := C6_no_mutation heapStore0 heapSeries0 (mkRat 1 2) false _ _ (by decide) hrun
  exact ⟨hrun, h.1 0 (by decide), h.2.2.1⟩

/-! ### C7 -/

theorem filter_false_map_true (l : List Bool) :
    ((l.map (fun _ => true)).filter (fun b => b = false)).length = 0 := by
  induction l with
  | nil => rfl
  | cons b t ih => simpa [List.filter_cons] using ih

theorem countRow_maskRow (r : TSRow) : countRow (maskRow r) = 0 := by
  simpa [countRow, maskRow] using filter_false_map_true r.mask

theorem maskRow_idem (r : TSRow) : maskRow (maskRow r) = maskRow r := by
  simp [maskRow, List.map_map]

theorem cmAdjust_props :
    ∀ (w : ℕ) (f : Freq) (adj : TSRow → ℤ → ℤ), cmAdjust w f = .ok adj →
      (∀ (r : TSRow) (m : ℤ), adj (maskRow r) m = adj r m)
      ∧ (∀ (r : TSRow) (m₁ m₂ : ℤ), m₁ ≤ m₂ → adj r m₁ ≤ adj r m₂) := by
  intro w f adj hadj
  unfold cmAdjust at hadj
  split_ifs at hadj with h1 h2 h3 h4
  · injection hadj with he
    subst he
    refine ⟨fun r m => rfl, fun r m₁ m₂ hle => ?_⟩
    unfold annAdjust
    split_ifs <;> omega
  · injection hadj with he
    subst he
    refine ⟨fun r m => rfl, fun r m₁ m₂ hle => ?_⟩
    unfold mthAdjust
    dsimp only
    split_ifs <;> omega
  · cases hq : qtrClass f with
    | none => rw [hq] at hadj; cases hadj
    | some c =>
      rw [hq] at hadj
      injection hadj with he
      subst he
      refine ⟨fun r m => rfl, fun r m₁ m₂ hle => ?_⟩
      unfold qtrAdjust
      cases c <;> (dsimp only; split_ifs <;> omega)
  · injection hadj with he
    subst he
    exact ⟨fun r m => rfl, fun r m₁ m₂ hle => hle⟩

theorem accept_eq_step_map (w : ℕ) (f : Freq) (rows : List TSRow) (mm : ℚ)
    (strict : Bool) (adj : TSRow → ℤ → ℤ) (hadj : cmAdjust w f = .ok adj) :
    accept_atmost_missing ⟨w, f, rows⟩ mm strict =
      .ok ⟨w, f, rows.map (acceptStep w adj
        (if mm < 1 then ((np_round_scaled mm w : ℤ) : ℚ) else mm) strict)⟩ := by
  simp only [accept_atmost_missing, count_missing2, hadj, Except.map]
  refine congrArg Except.ok (congrArg (TS2.mk w f) ?_)
  rw [zip_map_self]
  rfl

theorem acceptStep_idem (w : ℕ) (adj : TSRow → ℤ → ℤ) (mmq : ℚ) (strict : Bool)
    (hmeta : ∀ (r : TSRow) (m : ℤ), adj (maskRow r) m = adj r m)
    (hmono : ∀ (r : TSRow) (m₁ m₂ : ℤ), m₁ ≤ m₂ → adj r m₁ ≤ adj r m₂)
    (r : TSRow) :
    acceptStep w adj mmq strict (acceptStep w adj mmq strict r)
      = acceptStep w adj mmq strict r := by
  unfold acceptStep
  by_cases hc : (if strict then mmq < ((rowMissing w adj r : ℤ) : ℚ)
      else mmq ≤ ((rowMissing w adj r : ℤ) : ℚ))
  · rw [if_pos hc]
    have h1 : rowMissing w adj r ≤ rowMissing w adj (maskRow r) := by
      unfold rowMissing
      rw [hmeta, countRow_maskRow]
      apply hmono
      omega
    have h1q : ((rowMissing w adj r : ℤ) : ℚ) ≤ ((rowMissing w adj (maskRow r) : ℤ) : ℚ) := by
      exact_mod_cast h1
    have hc2 : (if strict then mmq < ((rowMissing w adj (maskRow r) : ℤ) : ℚ)
        else mmq ≤ ((rowMissing w adj (maskRow r) : ℤ) : ℚ)) := by
      cases strict
      · simp only [Bool.false_eq_true, if_false] at hc ⊢
        exact le_trans hc h1q
      · simp only [if_true] at hc ⊢
        exact lt_of_lt_of_le hc h1q
    rw [if_pos hc2, maskRow_idem]
  · rw [if_neg hc, if_neg hc]

/-- C7: `accept_atmost_missing` is idempotent: running it a second time with
the same threshold and strictness returns the first result unchanged
(including the error cases, which repeat identically). -/
theorem C7_idempotent :
    ∀ (s : TS2) (mm : ℚ) (strict : Bool),
      (accept_atmost_missing s mm strict).bind
        (fun t => accept_atmost_missing t mm strict)
      = accept_atmost_missing s mm strict := by
  intro s mm strict
  obtain ⟨w, f, rows⟩ := s
  cases hadj : cmAdjust w f with
  | error e =>
    have h1 : accept_atmost_missing ⟨w, f, rows⟩ mm strict = .error e := by
      simp only [accept_atmost_missing, count_missing2, hadj, Except.map]
    rw [h1]
    rfl
  | ok adj =>
    obtain ⟨hmeta, hmono⟩ := cmAdjust_props w f adj hadj
    have h1 := accept_eq_step_map w f rows mm strict adj hadj
    have h2 := accept_eq_step_map w f
      (rows.map (acceptStep w adj
        (if mm < 1 then ((np_round_scaled mm w : ℤ) : ℚ) else mm) strict))
      mm strict adj hadj
    rw [h1]
    show accept_atmost_missing
      ⟨w, f, rows.map (acceptStep w adj
        (if mm < 1 then ((np_round_scaled mm w : ℤ) : ℚ) else mm) strict)⟩
      mm strict = _
    rw [h2, List.map_map]
    refine congrArg Except.ok (congrArg (TS2.mk w f) ?_)
    refine List.map_congr_left (fun r _ => ?_)
    exact acceptStep_idem w adj _ strict hmeta hmono r
